import Mathlib

/-!
Shallow embedding of the transformation core of `src/openapigenerator2.ts`
(an OpenAPI-to-TypeScript client generator).  Strings are modelled as
`List Char`; JavaScript string operations (`replace`, `split`, `indexOf`,
`join`, template interpolation) are translated operation by operation.
Document maps (`spec.paths`, the per-path method maps) are modelled as
association lists in declaration order, matching `Object.entries`
enumeration order for the non-integer keys this program uses.
-/

namespace ApiGen

/-- A named character for the single-quote, written with an escape to keep
source lines readable. -/
def squote : Char := '\x27'

/-- A named character for the backtick that delimits template strings. -/
def btick : Char := '\x60'

/-- A named character for the opening curly brace. -/
def obrace : Char := '\x7b'

/-- A named character for the closing curly brace. -/
def cbrace : Char := '\x7d'

/-- A named character for the dollar sign used in template interpolation. -/
def dollar : Char := '$'

/-- One entry of an operation's `parameters` array: `{in, name}` in the
source (`in` is a reserved word in Lean, so the field is called
`location` here, the spec's own name for it). -/
structure Parameter where
  location : List Char
  name : List Char
deriving DecidableEq

/-- An operation object: an ordered list of parameter declarations and the
presence marker of a request body (`!!operation.requestBody`). -/
structure Operation where
  parameters : List Parameter
  requestBody : Bool
deriving DecidableEq

/-- A document: endpoint paths, in declaration order, each carrying its
methods in declaration order (the model of `spec.paths`). -/
abbrev ApiDoc := List (List Char × List (List Char × Operation))

/-- JavaScript `method.toLowerCase()` restricted to the characters this
program feeds it. -/
def lowerStr (s : List Char) : List Char := s.map Char.toLower

/-- The character class `[a-zA-Z0-9]` of the split regex in
`capitalizeCamelCase`. -/
def isAlnum (c : Char) : Bool :=
  ('a' ≤ c && c ≤ 'z') || ('A' ≤ c && c ≤ 'Z') || ('0' ≤ c && c ≤ '9')

/-- Fueled worker for `splitNonAlnum`; the fuel only certifies
termination, `splitNonAlnum` always supplies enough. -/
def splitNonAlnumAux : Nat → List Char → List (List Char)
  | 0, l => [l]
  | n + 1, l =>
    let word := l.takeWhile isAlnum
    let rest := l.dropWhile isAlnum
    match rest with
    | [] => [word]
    | _ => word :: splitNonAlnumAux n (rest.dropWhile (fun c => !isAlnum c))

/-- JavaScript `str.split(/[^a-zA-Z0-9]+/)`: split on maximal runs of
non-alphanumeric characters, keeping the empty fragments JavaScript keeps
at the boundaries. -/
def splitNonAlnum (l : List Char) : List (List Char) :=
  splitNonAlnumAux l.length l

/-- JavaScript `part.charAt(0).toUpperCase() + part.slice(1)`. -/
def capFirst : List Char → List Char
  | [] => []
  | c :: t => c.toUpper :: t

/-- JavaScript `str.replace(/^\//, '')`: drop one leading slash when
present. -/
def stripLeadingSlash : List Char → List Char
  | [] => []
  | c :: t => if c = '/' then t else c :: t

/-- Fueled worker for `removeBraces`, one step per scanned character.  At
an opening brace, the regex `{([^}]+)}` matches exactly when a closing
brace follows with at least one character in between; the match is
replaced by its interior and scanning resumes after it, otherwise the
opening brace is kept and scanning moves on by one character. -/
def removeBracesAux : Nat → List Char → List Char
  | 0, l => l
  | _ + 1, [] => []
  | n + 1, c :: rest =>
    if c = obrace then
      let content := rest.takeWhile (fun d => d ≠ cbrace)
      let rest' := rest.dropWhile (fun d => d ≠ cbrace)
      match rest' with
      | [] => c :: removeBracesAux n rest
      | _ :: after =>
        if content.isEmpty then c :: removeBracesAux n rest
        else content ++ removeBracesAux n after
    else c :: removeBracesAux n rest

/-- JavaScript `str.replace(/{([^}]+)}/g, '$1')`: rewrite every
`{name}` to `name`. -/
def removeBraces (l : List Char) : List Char :=
  removeBracesAux l.length l

/-- The identifier deriver of the source (`capitalizeCamelCase`): strip
one leading slash, drop the braces of `{name}` placeholders, split on
runs of non-alphanumeric characters, capitalize each fragment's first
character, concatenate. -/
def capitalizeCamelCase (s : List Char) : List Char :=
  (((splitNonAlnum (removeBraces (stripLeadingSlash s))).map capFirst)).flatten

/-- The identifier-derivation algorithm as the spec words it (section
4.2): same steps, but the empty fragments of the split are discarded
before capitalization.  Written to compare with `capitalizeCamelCase`. -/
def capitalizeCamelCaseSpec (s : List Char) : List Char :=
  ((((splitNonAlnum (removeBraces (stripLeadingSlash s))).filter
      (fun f => !f.isEmpty)).map capFirst)).flatten

/-- Fueled worker for the shrink loop of `findCommonPrefix`:
`while (strings[i].indexOf(prefix) !== 0) prefix = prefix.substring(0, prefix.length - 1)`.
`indexOf(p) === 0` holds exactly when `p` is a prefix, and the early
`return ''` of the source coincides with continuing from the empty
candidate, which every string accepts. -/
def shrinkCandAux : Nat → List Char → List Char → List Char
  | 0, p, s => if p.isPrefixOf s then p else []
  | n + 1, p, s => if p.isPrefixOf s then p else shrinkCandAux n p.dropLast s

/-- Shrink the candidate until it is a prefix of `s`. -/
def shrinkCand (p s : List Char) : List Char :=
  shrinkCandAux p.length p s

/-- The source's `findCommonPrefix`: start from the first string and
shrink against each later one in turn. -/
def findCommonPrefix : List (List Char) → List Char
  | [] => []
  | p :: rest => rest.foldl (fun acc s => shrinkCand acc s) p

/-- The source's `extractCommonBasePath`: the common prefix of all paths,
with exactly one trailing slash stripped when present (`endsWith('/')`
then `slice(0, -1)`). -/
def extractCommonBasePath (paths : List (List Char)) : List Char :=
  match paths with
  | [] => []
  | _ :: _ =>
    if ( findCommonPrefix paths).getLast? = some '/' then ( findCommonPrefix paths).dropLast
    else findCommonPrefix paths

/-- JavaScript `s.replace(pat, '')` for a string pattern: delete the
leftmost occurrence of `pat`, leave `s` unchanged when there is none
(the source's `path.replace(baseUrl, '')`). -/
def replaceFirst : List Char → List Char → List Char
  | [], _ => []
  | c :: rest, pat =>
    if pat.isPrefixOf (c :: rest) then (c :: rest).drop pat.length
    else c :: replaceFirst rest pat

/-- JavaScript `Array.prototype.join(sep)`. -/
def joinSep (sep : List Char) : List (List Char) → List Char
  | [] => []
  | [x] => x
  | x :: y :: rest => x ++ sep ++ joinSep sep (y :: rest)

/-- JavaScript `relativePath.replace(/{/g, '${')`: every opening brace
becomes `${`, closing braces are untouched. -/
def interpolate : List Char → List Char
  | [] => []
  | c :: t =>
    if c = obrace then dollar :: obrace :: interpolate t
    else c :: interpolate t

/-- The path-parameter names of an operation, in declaration order:
`operation.parameters?.filter(p => p.in === 'path').map(p => p.name) || []`. -/
def pathParamsOf (op : Operation) : List (List Char) :=
  (op.parameters.filter (fun p => p.location = "path".toList)).map (fun p => p.name)

/-- The generated function's name:
`method.toLowerCase() + capitalizeCamelCase(relativePath)`. -/
def functionNameOf (method relPath : List Char) : List Char :=
  lowerStr method ++ capitalizeCamelCase relPath

/-- The signature line pushed by `generateRoutesContent` (source lines
183-190): the parameter list text is built by the source's conditional
concatenation. -/
def functionDefinition (method relPath : List Char) (op : Operation) : List Char :=
  let params := pathParamsOf op
  "export async function ".toList ++ functionNameOf method relPath ++ "(".toList
    ++ (if params.length > 0 then
          joinSep ", ".toList params ++ (if op.requestBody then ", ".toList else [])
        else [])
    ++ (if op.requestBody then "requestBody: any".toList else [])
    ++ "): Promise<any> \x7b".toList

/-- The call-site path expression (source lines 193-196): a single-quoted
literal by default, overwritten by a backtick template with `{` rewritten
to `${` when the operation declares at least one path parameter. -/
def apiPath (relativePath : List Char) (params : List (List Char)) : List Char :=
  if params.length > 0 then btick :: (interpolate relativePath ++ [btick])
  else squote :: (relativePath ++ [squote])

/-- The body line pushed by `generateRoutesContent` (source lines
198-202): delegation to the verb-named accessor of the dispatch helper,
with the payload argument appended when a request body is present. -/
def returnLine (method pathExpr : List Char) (hasBody : Bool) : List Char :=
  "  return apiClient.".toList ++ lowerStr method ++ "(".toList ++ pathExpr
    ++ (if hasBody then ", requestBody".toList else []) ++ ");".toList

/-- The closing line pushed after each function. -/
def closeLine : List Char := "\x7d\n".toList

/-- The import line pushed first. -/
def importLine : List Char := "import \x7b apiClient \x7d from \x27./client\x27;\n".toList

/-- The inner loop of `generateRoutesContent` over one path's methods, in
declaration order: three lines pushed per operation. -/
def genMethods (relativePath : List Char) : List (List Char × Operation) → List (List Char)
  | [] => []
  | (method, op) :: rest =>
    functionDefinition method relativePath op
      :: returnLine method (apiPath relativePath (pathParamsOf op)) op.requestBody
      :: closeLine
      :: genMethods relativePath rest

/-- The outer loop of `generateRoutesContent` over the document's paths,
in declaration order; each path contributes its methods' lines after the
base path is removed by `path.replace(baseUrl, '')`. -/
def genPaths (baseUrl : List Char) : ApiDoc → List (List Char)
  | [] => []
  | (p, methods) :: rest =>
    genMethods (replaceFirst p baseUrl) methods ++ genPaths baseUrl rest

/-- The list of lines accumulated by `generateRoutesContent` in its
`functions` array: the import line, then the loops' pushes. -/
def routeLines (spec : ApiDoc) (baseUrl : List Char) : List (List Char) :=
  importLine :: genPaths baseUrl spec

/-- The full text of `generateRoutesContent`: the accumulated lines joined
with a newline. -/
def generateRoutesContent (spec : ApiDoc) (baseUrl : List Char) : List Char :=
  joinSep "\n".toList (routeLines spec baseUrl)

/-- The wiring of `main` (source lines 233 and 237): the base URL passed
to the route generator is the extracted common base path of the
document's own paths. -/
def mainRoutes (spec : ApiDoc) : List Char :=
  generateRoutesContent spec (extractCommonBasePath (spec.map Prod.fst))

/-- Concrete documents used by the concrete claim instances. -/
def opPlain : Operation := ⟨[], false⟩

/-- The end-to-end document of the spec's section 8 scenario:
`{"/api/users": {"get": {}}, "/api/users/{id}": {"get": {"parameters":[{"in":"path","name":"id"}]}}}`. -/
def doc1 : ApiDoc :=
  [("/api/users".toList, [("get".toList, opPlain)]),
   ("/api/users/\x7bid\x7d".toList,
    [("get".toList, ⟨[⟨"path".toList, "id".toList⟩], false⟩)])]

/-- A document whose second path carries a placeholder but whose operation
declares no path parameter. -/
def doc3 : ApiDoc :=
  [("/a".toList, [("get".toList, opPlain)]),
   ("/a/\x7bid\x7d".toList, [("get".toList, opPlain)])]

/-- A two-path document declared in the order [P2, P1] = ["/b", "/a"]. -/
def doc7 : ApiDoc :=
  [("/b".toList, [("get".toList, opPlain)]),
   ("/a".toList, [("get".toList, opPlain)])]

/-- A small two-path document with common base "/v1". -/
def doc5 : ApiDoc :=
  [("/v1/a".toList, [("get".toList, opPlain)]),
   ("/v1/b".toList, [("get".toList, opPlain)])]

theorem isPrefixOf_eq (p s : List Char) : p.isPrefixOf s = true ↔ p <+: s := by
  induction p generalizing s with
  | nil => simp [List.isPrefixOf]
  | cons a p ih =>
    cases s with
    | nil => simp [List.isPrefixOf]
    | cons b s => simp [List.isPrefixOf, List.cons_prefix_cons, ih]

theorem dropLast_pref (l : List Char) : l.dropLast <+: l := by
  induction l with
  | nil => exact ⟨[], rfl⟩
  | cons a t ih =>
    cases t with
    | nil => exact ⟨[a], rfl⟩
    | cons b u =>
      obtain ⟨r, hr⟩ := ih
      exact ⟨r, by simp only [List.dropLast_cons₂, List.cons_append, hr]⟩

theorem shrinkCandAux_pref (n : Nat) (p s : List Char) :
    shrinkCandAux n p s <+: p ∧ shrinkCandAux n p s <+: s := by
  induction n generalizing p with
  | zero =>
    by_cases h : p.isPrefixOf s = true
    · simp only [shrinkCandAux, h, if_true]
      exact ⟨List.prefix_rfl, (isPrefixOf_eq p s).1 h⟩
    · simp only [shrinkCandAux, h, if_false]
      exact ⟨⟨p, rfl⟩, ⟨s, rfl⟩⟩
  | succ n ih =>
    by_cases h : p.isPrefixOf s = true
    · simp only [shrinkCandAux, h, if_true]
      exact ⟨List.prefix_rfl, (isPrefixOf_eq p s).1 h⟩
    · simp only [shrinkCandAux, h, if_false]
      obtain ⟨h1, h2⟩ := ih p.dropLast
      exact ⟨h1.trans (dropLast_pref p), h2⟩

theorem foldl_shrink (rest : List (List Char)) :
    ∀ acc : List Char,
      (rest.foldl (fun a s => shrinkCand a s) acc <+: acc) ∧
      (∀ s ∈ rest, rest.foldl (fun a s => shrinkCand a s) acc <+: s) := by
  induction rest with
  | nil =>
    intro acc
    exact ⟨List.prefix_rfl, by simp⟩
  | cons x rest ih =>
    intro acc
    simp only [List.foldl_cons]
    obtain ⟨h1, h2⟩ := ih (shrinkCand acc x)
    have hx := shrinkCandAux_pref acc.length acc x
    refine ⟨h1.trans hx.1, ?_⟩
    intro s hs
    rcases List.mem_cons.mp hs with rfl | hmem
    · exact h1.trans hx.2
    · exact h2 s hmem

theorem fcp_pref (paths : List (List Char)) (p : List Char) (hp : p ∈ paths) :
    findCommonPrefix paths <+: p := by
  cases paths with
  | nil => cases hp
  | cons q rest =>
    have h := foldl_shrink rest q
    show rest.foldl (fun acc s => shrinkCand acc s) q <+: p
    rcases List.mem_cons.mp hp with rfl | hmem
    · exact h.1
    · exact h.2 p hmem

theorem extract_pref (paths : List (List Char)) (p : List Char) (hp : p ∈ paths) :
    extractCommonBasePath paths <+: p := by
  have h := fcp_pref paths p hp
  cases paths with
  | nil => cases hp
  | cons q rest =>
    show (if ( findCommonPrefix (q :: rest)).getLast? = some '/'
          then ( findCommonPrefix (q :: rest)).dropLast
          else findCommonPrefix (q :: rest)) <+: p
    split
    · exact (dropLast_pref _).trans h
    · exact h

theorem replaceFirst_pref (p pre : List Char) (h : pre <+: p) :
    replaceFirst p pre = p.drop pre.length := by
  cases p with
  | nil =>
    have hnil : pre = [] := List.prefix_nil.mp h
    subst hnil
    rfl
  | cons c rest =>
    have hb : pre.isPrefixOf (c :: rest) = true := (isPrefixOf_eq _ _).2 h
    simp [replaceFirst, hb]

theorem joinSep_concat (sep y : List Char) :
    ∀ l : List (List Char), l ≠ [] →
      joinSep sep (l ++ [y]) = joinSep sep l ++ sep ++ y := by
  intro l
  induction l with
  | nil => intro h; cases h rfl
  | cons x l ih =>
    intro _
    cases l with
    | nil => simp [joinSep]
    | cons z l' =>
      have hrec := ih (by simp)
      show joinSep sep (x :: ((z :: l') ++ [y])) = joinSep sep (x :: z :: l') ++ sep ++ y
      rw [show joinSep sep (x :: ((z :: l') ++ [y]))
            = x ++ sep ++ joinSep sep ((z :: l') ++ [y]) from rfl, hrec]
      simp [joinSep, List.append_assoc]

theorem capFlatten_filter (L : List (List Char)) :
    ((L.filter (fun f => !f.isEmpty)).map capFirst).flatten = (L.map capFirst).flatten := by
  induction L with
  | nil => rfl
  | cons x L ih =>
    cases x with
    | nil => simpa [List.filter_cons, capFirst] using ih
    | cons c t => simp [List.filter_cons, capFirst, ih]

theorem interpolate_append (a b : List Char) :
    interpolate (a ++ b) = interpolate a ++ interpolate b := by
  induction a with
  | nil => rfl
  | cons c t ih =>
    by_cases h : c = obrace
    · simp [interpolate, h, ih]
    · simp [interpolate, h, ih]

theorem interpolate_nobrace (l : List Char) (h : obrace ∉ l) : interpolate l = l := by
  induction l with
  | nil => rfl
  | cons c t ih =>
    have hc : ¬ c = obrace := fun hc => h (hc ▸ List.mem_cons_self c t)
    have ht : obrace ∉ t := fun hm => h (List.mem_cons_of_mem c hm)
    simp [interpolate, hc, ih ht]

/-- C9: the prefix extractor satisfies the four concrete equations of the
spec's testable properties: empty list gives the empty string, a
singleton is returned unchanged, ["/api/users", "/api/orders"] gives
"/api" with the trailing slash stripped, and ["/a", "/b"] gives the
empty string. -/
theorem extractCommonBasePath_equations :
    extractCommonBasePath [] = [] ∧
    extractCommonBasePath ["/a/b/c".toList] = "/a/b/c".toList ∧
    extractCommonBasePath ["/api/users".toList, "/api/orders".toList] = "/api".toList ∧
    extractCommonBasePath ["/a".toList, "/b".toList] = [] := by
  decide

/-- C4: the extracted common base path is a literal character-by-character
prefix of every path in the list (so in particular the claimed
disjunction "prefix of every path, or the empty string" holds). -/
theorem extractCommonBasePath_isPref (paths : List (List Char)) (p : List Char)
    (hp : p ∈ paths) :
    extractCommonBasePath paths <+: p ∨ extractCommonBasePath paths = [] :=
  Or.inl (extract_pref paths p hp)

/-- Witness for C4 at the concrete list ["/api/users", "/api/orders"]. -/
theorem extractCommonBasePath_isPref_wit :
    extractCommonBasePath ["/api/users".toList, "/api/orders".toList] <+: "/api/users".toList ∨
    extractCommonBasePath ["/api/users".toList, "/api/orders".toList] = [] :=
  extractCommonBasePath_isPref _ _ (by decide)

/-- C2 counterexample: re-applying the prefix extractor to its own
singleton result is not a fixed point for P = ["//"]; the first
application gives "/", the second gives "". -/
theorem extract_not_idempotent :
    extractCommonBasePath [extractCommonBasePath ["//".toList]] ≠
      extractCommonBasePath ["//".toList] := by
  decide

/-- C2 amended: for every non-empty list of paths P whose extracted
result does not end in the path separator, re-application to the
singleton result is a fixed point. -/
theorem extract_idempotent (P : List (List Char)) (_hne : P ≠ [])
    (h : (extractCommonBasePath P).getLast? ≠ some '/') :
    extractCommonBasePath [extractCommonBasePath P] = extractCommonBasePath P := by
  rw [show extractCommonBasePath [extractCommonBasePath P]
        = (if (extractCommonBasePath P).getLast? = some '/'
           then (extractCommonBasePath P).dropLast
           else extractCommonBasePath P) from rfl]
  rw [if_neg h]

/-- Witness for C2's amended theorem at P = ["/a/b"]. -/
theorem extract_idempotent_wit :
    extractCommonBasePath [extractCommonBasePath ["/a/b".toList]] =
      extractCommonBasePath ["/a/b".toList] :=
  extract_idempotent ["/a/b".toList] (by decide) (by decide)

/-- C5: the relative path used by the route generator — the document path
with the first occurrence of the computed base path deleted — equals the
path with the common prefix removed from its front. -/
theorem relativePath_drops_base (spec : ApiDoc) (p : List Char)
    (hp : p ∈ spec.map Prod.fst) :
    replaceFirst p (extractCommonBasePath (spec.map Prod.fst)) =
      p.drop (extractCommonBasePath (spec.map Prod.fst)).length :=
  replaceFirst_pref p _ (extract_pref _ p hp)

/-- Witness for C5 at the two-path document doc5. -/
theorem relativePath_drops_base_wit :
    replaceFirst "/v1/a".toList (extractCommonBasePath (doc5.map Prod.fst)) =
      ("/v1/a".toList).drop (extractCommonBasePath (doc5.map Prod.fst)).length :=
  relativePath_drops_base doc5 "/v1/a".toList (by decide)

/-- C8: the identifier deriver agrees with the spec's five-step
algorithm (strip one leading separator, turn placeholders into bare
names, split on non-alphanumeric runs discarding empty fragments,
capitalize each fragment, concatenate) on every input string, and in
particular maps "/users/{id}" to "UsersId", "/" to "", and "/a-b_c" to
"ABC". -/
theorem capitalizeCamelCase_spec :
    (∀ s : List Char, capitalizeCamelCase s = capitalizeCamelCaseSpec s) ∧
    capitalizeCamelCase "/users/\x7bid\x7d".toList = "UsersId".toList ∧
    capitalizeCamelCase "/".toList = [] ∧
    capitalizeCamelCase "/a-b_c".toList = "ABC".toList := by
  refine ⟨?_, by decide, by decide, by decide⟩
  intro s
  exact (capFlatten_filter _).symm

/-- C6: the generated signature line renders, between its parentheses,
exactly the comma-separated list of the operation's path-category
parameter names in declaration order, followed by the payload formal
parameter exactly when a request body is present. -/
theorem functionDefinition_params (method relPath : List Char) (op : Operation) :
    functionDefinition method relPath op =
      "export async function ".toList ++ functionNameOf method relPath ++ "(".toList
        ++ joinSep ", ".toList
            (pathParamsOf op ++ (if op.requestBody then ["requestBody: any".toList] else []))
        ++ "): Promise<any> \x7b".toList := by
  show "export async function ".toList ++ functionNameOf method relPath ++ "(".toList
      ++ (if (pathParamsOf op).length > 0 then
            joinSep ", ".toList (pathParamsOf op)
              ++ (if op.requestBody then ", ".toList else [])
          else [])
      ++ (if op.requestBody then "requestBody: any".toList else [])
      ++ "): Promise<any> \x7b".toList = _
  cases hp : pathParamsOf op with
  | nil => cases hb : op.requestBody <;> simp [joinSep]
  | cons x ps =>
    cases hb : op.requestBody
    · simp [joinSep]
    · have hjoin := joinSep_concat ", ".toList "requestBody: any".toList (x :: ps) (by simp)
      simp only [List.length_cons, gt_iff_lt, Nat.succ_pos, if_true, ite_true, if_pos,
        List.append_assoc, hjoin]

/-- C7: the route generator's loops preserve declaration order — the
accumulated lines are exactly the in-order concatenation over the
document's entries — and for the concrete document doc7 with paths
declared in order ["/b", "/a"] the function for "/b" (getB) appears in
the output lines before the one for "/a" (getA). -/
theorem genPaths_order :
    (∀ (spec : ApiDoc) (baseUrl : List Char),
      genPaths baseUrl spec =
        (spec.map (fun e => genMethods (replaceFirst e.1 baseUrl) e.2)).flatten) ∧
    routeLines doc7 (extractCommonBasePath (doc7.map Prod.fst)) =
      [importLine,
       "export async function getB(): Promise<any> \x7b".toList,
       "  return apiClient.get(\x27/b\x27);".toList,
       "\x7d\n".toList,
       "export async function getA(): Promise<any> \x7b".toList,
       "  return apiClient.get(\x27/a\x27);".toList,
       "\x7d\n".toList] := by
  constructor
  · intro spec baseUrl
    induction spec with
    | nil => rfl
    | cons e rest ih =>
      obtain ⟨p, ms⟩ := e
      simp [genPaths, ih]
  · decide

/-- C1 counterexample: on the section-8 document the computed common base
path is the full first path "/api/users" (character-based longest common
prefix), not the segment boundary "/api" the claim states. -/
theorem doc1_base_not_api :
    extractCommonBasePath (doc1.map Prod.fst) ≠ "/api".toList := by
  decide

/-- C1 amended: on the section-8 document the pipeline computes the
common base path "/api/users" and generates exactly two functions: get()
with no parameters calling the get accessor with the literal path '',
and getId(id) with the single parameter id calling the get accessor with
the interpolated template `/${id}`. -/
theorem doc1_generated :
    extractCommonBasePath (doc1.map Prod.fst) = "/api/users".toList ∧
    routeLines doc1 (extractCommonBasePath (doc1.map Prod.fst)) =
      [importLine,
       "export async function get(): Promise<any> \x7b".toList,
       "  return apiClient.get(\x27\x27);".toList,
       "\x7d\n".toList,
       "export async function getId(id): Promise<any> \x7b".toList,
       "  return apiClient.get(\x60/$\x7bid\x7d\x60);".toList,
       "\x7d\n".toList] := by
  decide

/-- C3 counterexample: in doc3 the generated function for "/a/{id}" has
relative path "/{id}", which contains a {name} placeholder, yet because
its operation declares no path parameter the call-site path is emitted
as the plain single-quoted literal '/{id}' — no backtick template
appears, contradicting the claim's placeholder-based condition. -/
theorem placeholder_without_param_literal :
    routeLines doc3 (extractCommonBasePath (doc3.map Prod.fst)) =
      [importLine,
       "export async function get(): Promise<any> \x7b".toList,
       "  return apiClient.get(\x27\x27);".toList,
       "\x7d\n".toList,
       "export async function getId(): Promise<any> \x7b".toList,
       "  return apiClient.get(\x27/\x7bid\x7d\x27);".toList,
       "\x7d\n".toList] ∧
    obrace ∈ replaceFirst "/a/\x7bid\x7d".toList (extractCommonBasePath (doc3.map Prod.fst)) ∧
    btick ∉ apiPath
        (replaceFirst "/a/\x7bid\x7d".toList (extractCommonBasePath (doc3.map Prod.fst)))
        (pathParamsOf opPlain) := by
  decide

/-- C3 amended: the call-site path is a plain single-quoted literal
exactly when the operation declares no path-category parameter, and a
backtick template with every opening brace rewritten to the
interpolation opener otherwise; the rewriting turns every well-formed
{name} placeholder (name free of opening braces) into ${name}. -/
theorem apiPath_cases (relativePath : List Char) (params : List (List Char)) :
    (params = [] → apiPath relativePath params = squote :: (relativePath ++ [squote])) ∧
    (params ≠ [] → apiPath relativePath params = btick :: (interpolate relativePath ++ [btick])) ∧
    (∀ pre nm post : List Char, obrace ∉ nm →
      interpolate (pre ++ obrace :: nm ++ cbrace :: post) =
        interpolate pre ++ dollar :: obrace :: (nm ++ cbrace :: interpolate post)) := by
  refine ⟨?_, ?_, ?_⟩
  · intro h
    subst h
    rfl
  · intro h
    cases params with
    | nil => cases h rfl
    | cons x ps => simp [apiPath]
  · intro pre nm post hnm
    have hcb : interpolate (cbrace :: post) = cbrace :: interpolate post := by
      simp [interpolate, show ¬ cbrace = obrace from by decide]
    have hob : ∀ L : List Char, interpolate (obrace :: L) = dollar :: obrace :: interpolate L := by
      intro L
      simp [interpolate]
    simp [interpolate_append, hcb, hob, interpolate_nobrace nm hnm, List.append_assoc]

/-- Witness for C3's amended theorem at relative path "/{id}" with the
declared parameter list ["id"]. -/
theorem apiPath_cases_wit :
    apiPath "/\x7bid\x7d".toList ["id".toList] =
      btick :: (interpolate "/\x7bid\x7d".toList ++ [btick]) ∧
    interpolate ("/".toList ++ obrace :: "id".toList ++ cbrace :: []) =
      interpolate "/".toList ++ dollar :: obrace :: ("id".toList ++ cbrace :: interpolate []) :=
  ⟨(apiPath_cases "/\x7bid\x7d".toList ["id".toList]).2.1 (by decide),
   (apiPath_cases "/\x7bid\x7d".toList ["id".toList]).2.2 "/".toList "id".toList [] (by decide)⟩

/-- C10: when a document path equals the computed common base path its
relative path is empty, every generated function name for it is the bare
lowercased HTTP method, and with no declared path parameters its
call-site path is the empty single-quoted literal. -/
theorem path_equal_base (paths : List (List Char)) (p method : List Char)
    (_hmem : p ∈ paths) (heq : p = extractCommonBasePath paths) :
    replaceFirst p (extractCommonBasePath paths) = [] ∧
    functionNameOf method (replaceFirst p (extractCommonBasePath paths)) = lowerStr method ∧
    apiPath (replaceFirst p (extractCommonBasePath paths)) [] = "\x27\x27".toList := by
  have hrep : replaceFirst p (extractCommonBasePath paths) = [] := by
    rw [← heq, replaceFirst_pref p p List.prefix_rfl]
    exact List.drop_length p
  refine ⟨hrep, ?_, ?_⟩
  · rw [hrep]
    show lowerStr method ++ capitalizeCamelCase [] = lowerStr method
    rw [show capitalizeCamelCase [] = [] from rfl, List.append_nil]
  · rw [hrep]
    rfl

/-- Witness for C10 at doc1's paths, whose first path "/api/users"
equals the computed base path, with method "get". -/
theorem path_equal_base_wit :
    replaceFirst "/api/users".toList (extractCommonBasePath (doc1.map Prod.fst)) = [] ∧
    functionNameOf "get".toList
        (replaceFirst "/api/users".toList (extractCommonBasePath (doc1.map Prod.fst)))
      = lowerStr "get".toList ∧
    apiPath (replaceFirst "/api/users".toList (extractCommonBasePath (doc1.map Prod.fst))) []
      = "\x27\x27".toList :=
  path_equal_base (doc1.map Prod.fst) "/api/users".toList "get".toList
    (by decide) (by decide)

end ApiGen
